import Mathlib

/-!
Shallow embedding of `src/panid/panid.py` (the `panid` gene-identifier
conversion tool) together with theorems settling the specification claims.

Python strings are modelled as Lean `String` (lists of characters),
`pandas` missing values (`NaN`) as `none : Option String`, tables as a
column list plus rows of association lists, and fallible Python code as
`Except PyError`.
-/

set_option maxHeartbeats 1000000

namespace Panid

/-- Python exceptions relevant to the modelled code paths. -/
inductive PyError where
  /-- `UnboundLocalError`: a local variable referenced before assignment. -/
  | unboundLocalError
  /-- A failure raised by the fetch/save collaborator during a cache rebuild. -/
  | fetchFailed
  /-- `FileNotFoundError` when opening a missing cache artifact for reading. -/
  | fileNotFound
deriving DecidableEq, Repr

/-! ## Identifier types and conversion specs (panid.py lines 54-75) -/

/-- `IdType(StrEnum)`: the eight identifier namespaces. `auto()` on a
`StrEnum` gives each member the lowercase member name as its value. -/
inductive IdType where
  | ensg_version
  | ensg
  | enst_version
  | enst
  | ncbi_gene_id
  | refseq_rna_id
  | hgnc_id
  | hgnc_symbol
deriving DecidableEq, Repr

/-- The string value of an `IdType` member (its `.value` in Python). -/
def IdType.value : IdType → String
  | .ensg_version => "ensg_version"
  | .ensg => "ensg"
  | .enst_version => "enst_version"
  | .enst => "enst"
  | .ncbi_gene_id => "ncbi_gene_id"
  | .refseq_rna_id => "refseq_rna_id"
  | .hgnc_id => "hgnc_id"
  | .hgnc_symbol => "hgnc_symbol"

/-- `IdType(token)`: look a member up by value; `none` models the
`ValueError` Python raises for an unrecognized token. -/
def IdType.fromValue : String → Option IdType
  | "ensg_version" => some .ensg_version
  | "ensg" => some .ensg
  | "enst_version" => some .enst_version
  | "enst" => some .enst
  | "ncbi_gene_id" => some .ncbi_gene_id
  | "refseq_rna_id" => some .refseq_rna_id
  | "hgnc_id" => some .hgnc_id
  | "hgnc_symbol" => some .hgnc_symbol
  | _ => none

/-- `Symbol(Enum)`: `ADD = "+"`, `REPLACE = ">"`. -/
inductive Symbol where
  | add
  | replace
deriving DecidableEq, Repr

/-- The symbol denoted by a matched delimiter character (the regex only
lets `'+'` or `'>'` reach this point). -/
def Symbol.ofChar (c : Char) : Symbol :=
  if c = '+' then .add else .replace

/-- The `Conversion` dataclass (`to` is written `«to»` as it is reserved). -/
structure Conversion where
  original : String
  original_type : IdType
  «to» : String
  to_type : IdType
  additive : Bool
deriving DecidableEq, Repr

/-! ## The conversion-string regex (panid.py lines 88-97)

`re.compile(r"(.+?):(.+?)(\+|>)(.+?):(.+?)$")`, used with `.match` (anchored
at the start; the trailing dollar anchors the end of the input, which is
modelled as end-of-string).  `.` matches any character except a newline;
`+?` is lazy.  Backtracking with lazy quantifiers returns the
lexicographically smallest triple of group boundaries `(i, j, k)` (end of
group 1, position of the symbol, position of the second colon) for which
the whole pattern matches. -/

/-- No character of the segment is a newline (a regex `.` cannot match one). -/
def noNewline (l : List Char) : Bool :=
  l.all (fun c => decide (c ≠ '\n'))

/-- The slice `s[a:b]` of a character list. -/
def slice (s : List Char) (a b : Nat) : List Char :=
  (s.drop a).take (b - a)

/-- Whether the group boundaries `(i, j, k)` give a match of
`(.+?):(.+?)(\+|>)(.+?):(.+?)$` against `s`. -/
def regexBoundsOk (s : List Char) (i j k : Nat) : Bool :=
  decide (1 ≤ i) && decide (s.get? i = some ':') && noNewline (slice s 0 i) &&
  decide (i + 2 ≤ j) && (decide (s.get? j = some '+') || decide (s.get? j = some '>')) &&
  noNewline (slice s (i + 1) j) &&
  decide (j + 2 ≤ k) && decide (s.get? k = some ':') && noNewline (slice s (j + 1) k) &&
  decide (k + 2 ≤ s.length) && noNewline (slice s (k + 1) s.length)

/-- The boundaries the backtracking engine settles on: the lexicographically
first valid `(i, j, k)`, exactly the order a lazy `+?` explores. -/
def findMatch (s : List Char) : Option (Nat × Nat × Nat) :=
  (List.range s.length).findSome? fun i =>
    (List.range s.length).findSome? fun j =>
      (List.range s.length).findSome? fun k =>
        if regexBoundsOk s i j k then some (i, j, k) else none

/-- `Conversion.from_string`.  When the regex does not match, or an
`IdType` lookup raises, the `except` clause only logs; the subsequent
`Conversion(...)` constructor call then reads a local that was never
assigned, so the function raises `UnboundLocalError`. -/
def Conversion.from_string (raw : String) : Except PyError Conversion :=
  let s := raw.data
  match findMatch s with
  | none => .error .unboundLocalError
  | some (i, j, k) =>
    let original := String.mk (slice s 0 i)
    match IdType.fromValue (String.mk (slice s (i + 1) j)) with
    | none => .error .unboundLocalError
    | some original_type =>
      let symbol := Symbol.ofChar (s.getD j '>')
      let toName := String.mk (slice s (j + 1) k)
      match IdType.fromValue (String.mk (slice s (k + 1) s.length)) with
      | none => .error .unboundLocalError
      | some to_type =>
        .ok { original := original, original_type := original_type,
              «to» := toName, to_type := to_type,
              additive := decide (symbol = Symbol.add) }

/-! ## The cache (panid.py lines 109-148)

`CachedData` state is the artifact on disk: `none` when absent, otherwise
its mtime and content.  The fetch collaborator (`saver`) is passed in as
its outcome; `loader` reads back whatever content the file holds. -/

/-- The on-disk cache artifact: last-modified time and content. -/
structure CacheFile where
  mtime : Int
  content : String
deriving DecidableEq, Repr

namespace CachedData

/-- `CachedData.is_timed_out`: `True` when the file is absent; otherwise
compares `lstat().st_mtime - time.time()` against the timeout. -/
def is_timed_out (file : Option CacheFile) (now timeout : Int) : Bool :=
  match file with
  | none => true
  | some f => decide (f.mtime - now > timeout)

/-- `CachedData.data`: when timed out, open the artifact with `"w+"`
(truncating any previous content), run the saver, and on failure
`os.remove` the artifact and re-raise; then open for reading and load.
Returns the resulting disk state together with the loaded content or the
propagated error. -/
def data (file : Option CacheFile) (now timeout : Int)
    (saver : Except PyError String) (saveMtime : Int) :
    Option CacheFile × Except PyError String :=
  if is_timed_out file now timeout then
    match saver with
    | .error e => (none, .error e)
    | .ok fresh => (some ⟨saveMtime, fresh⟩, .ok fresh)
  else
    match file with
    | some f => (file, .ok f.content)
    | none => (none, .error .fileNotFound)

end CachedData

/-! ## drop_version (panid.py lines 239-240) -/

/-- Python `str.split(sep)` for a single-character separator: no collapsing
of adjacent separators, and the empty string splits to `[""]`. -/
def pySplit (sep : Char) : List Char → List (List Char)
  | [] => [[]]
  | c :: cs =>
    if c = sep then [] :: pySplit sep cs
    else
      match pySplit sep cs with
      | [] => [[c]]
      | p :: ps => (c :: p) :: ps

/-- Python `sep.join(parts)` for a single-character separator. -/
def pyJoin (sep : Char) : List (List Char) → List Char
  | [] => []
  | [p] => p
  | p :: q :: qs => p ++ sep :: pyJoin sep (q :: qs)

/-- `drop_version`: `".".join(id.split(".")[:-1])`. -/
def drop_version (id : String) : String :=
  String.mk (pyJoin '.' ((pySplit '.' id.data).dropLast))

/-! ## A model of the pandas operations used by the conversion engine

A cell holds `none` for `NaN`.  A row is an association list from column
name to cell, in column order; a table is its column list plus its rows.
`merge(how="left")` with no `on=` joins on all columns the two frames
share (and pandas matches `NaN` keys with `NaN` keys, as does `none =
none` here); `drop_duplicates` keeps the first occurrence of each row. -/

/-- A table row: column names paired with cell values, in column order. -/
abbrev Row := List (String × Option String)

/-- A data frame: column names and rows. -/
structure Table where
  cols : List String
  rows : List Row
deriving DecidableEq, Repr

/-- The cell a row holds in a column (first matching entry; `none` when the
column is absent, as a pandas lookup of a missing label never arises in the
modelled paths). -/
def rowGet (r : Row) (c : String) : Option String :=
  match r with
  | [] => none
  | (k, v) :: rest => if k = c then v else rowGet rest c

/-- Every row has exactly the table's columns as keys, in order. -/
def Wf (t : Table) : Prop :=
  ∀ r ∈ t.rows, r.map Prod.fst = t.cols

instance (t : Table) : Decidable (Wf t) := by
  unfold Wf
  infer_instance

/-- `drop_duplicates` (keep the first occurrence), with the already-seen
rows accumulated. -/
def dedupSeen {α : Type} [DecidableEq α] : List α → List α → List α
  | _, [] => []
  | seen, a :: as =>
    if a ∈ seen then dedupSeen seen as else a :: dedupSeen (a :: seen) as

/-- `drop_duplicates`: keep the first occurrence of each element. -/
def dropDuplicates {α : Type} [DecidableEq α] (l : List α) : List α :=
  dedupSeen [] l

/-- `frame[[c, ...]]`: select columns (in the given order). -/
def selectCols (t : Table) (cs : List String) : Table :=
  ⟨cs, t.rows.map (fun r => cs.map (fun c => (c, rowGet r c)))⟩

/-- `frame.dropna(axis=0, subset=c)`: keep rows whose cell at `c` is not `NaN`. -/
def dropna (t : Table) (c : String) : Table :=
  ⟨t.cols, t.rows.filter (fun r => decide (rowGet r c ≠ none))⟩

/-- Rename one key of a row. -/
def renameRow (old nw : String) (r : Row) : Row :=
  r.map (fun p => (if p.1 = old then nw else p.1, p.2))

/-- `frame.rename(columns={old: nw})`. -/
def renameCol (t : Table) (old nw : String) : Table :=
  ⟨t.cols.map (fun c => if c = old then nw else c), t.rows.map (renameRow old nw)⟩

/-- Remove one key of a row. -/
def dropColRow (col : String) (r : Row) : Row :=
  r.filter (fun p => decide (p.1 ≠ col))

/-- `frame.drop(columns=[col])`. -/
def dropCol (t : Table) (col : String) : Table :=
  ⟨t.cols.filter (fun c => decide (c ≠ col)), t.rows.map (dropColRow col)⟩

/-- `frame.drop_duplicates()`. -/
def dropDupRows (t : Table) : Table :=
  ⟨t.cols, dropDuplicates t.rows⟩

/-- The columns two frames share, in left order: the join keys `merge`
infers when no `on=` is given. -/
def commonCols (l r : List String) : List String :=
  l.filter (fun c => decide (c ∈ r))

/-- Whether a left row and a right row agree on every join key. -/
def matchesRow (keys : List String) (lr rr : Row) : Bool :=
  keys.all (fun c => decide (rowGet lr c = rowGet rr c))

/-- The rows a left-join produces for one left row: one row per matching
right row (left cells, then the right-only cells), or a single row padded
with `NaN` when nothing matches. -/
def expandRow (keys ro : List String) (rrows : List Row) (lr : Row) : List Row :=
  let ms := rrows.filter (fun rr => matchesRow keys lr rr)
  if ms.isEmpty then [lr ++ ro.map (fun c => (c, (none : Option String)))]
  else ms.map (fun rr => lr ++ ro.map (fun c => (c, rowGet rr c)))

/-- `left.merge(right, how="left")` with keys inferred from the shared
columns: keeps every left row, fanning out over matching right rows. -/
def leftMerge (l r : Table) : Table :=
  let keys := commonCols l.cols r.cols
  let ro := r.cols.filter (fun c => decide (c ∉ l.cols))
  ⟨l.cols ++ ro, l.rows.flatMap (expandRow keys ro r.rows)⟩

/-! ## The conversion engine (panid.py lines 278-304) -/

/-- The two-column reference selection `panid_convert` builds: select the
target-type and source-type columns, drop rows with a missing target,
rename the source-type column to the spec's source column, de-duplicate. -/
def mkSelection (conversion : Conversion) (id_table : Table) : Table :=
  dropDupRows
    (renameCol
      (dropna (selectCols id_table [conversion.to_type.value, conversion.original_type.value])
        conversion.to_type.value)
      conversion.original_type.value conversion.original)

/-- `panid_convert`: left-join the input to the reference selection,
de-duplicate, drop the source column unless the conversion is additive,
and rename the joined-in target-type column to the requested name. -/
def panid_convert (input : Table) (conversion : Conversion) (id_table : Table) : Table :=
  let selection := mkSelection conversion id_table
  let merged := dropDupRows (leftMerge input selection)
  let merged2 := if conversion.additive then merged else dropCol merged conversion.original
  renameCol merged2 conversion.to_type.value conversion.«to»

/-! ## The pipeline driver (panid.py lines 307-328) -/

/-- The error `panid` raises when a spec's source column is missing: the
f-string carries the offending column name and `input_data.columns` — the
columns of the original input table, not of the current working table. -/
inductive DriverError where
  | valueError (column : String) (reportedCols : List String)
deriving DecidableEq, Repr

/-- The conversion loop of `panid`: for each spec in order, check its
source column against the current working table (raising a `ValueError`
that reports the original input's columns otherwise) and apply
`panid_convert`. -/
def applyConversions (inputCols : List String) (id_table : Table) :
    List Conversion → Table → Except DriverError Table
  | [], current => .ok current
  | conv :: rest, current =>
    if conv.original ∈ current.cols then
      applyConversions inputCols id_table rest (panid_convert current conv id_table)
    else
      .error (.valueError conv.original inputCols)

/-- `panid` after the cache load and CSV read: run the conversion loop and
de-duplicate the final table (which is then written out; an error means
nothing is written). -/
def panid (input_data : Table) (conversions : List Conversion) (data : Table) :
    Except DriverError Table :=
  match applyConversions input_data.cols data conversions input_data with
  | .error e => .error e
  | .ok t => .ok (dropDupRows t)

/-- The distinct non-missing target-type ids a given source-type id maps to
in a reference table (the claim C8 notion of "maps to N target ids"). -/
def distinctTargets (id_table : Table) (conversion : Conversion) (idv : String) :
    List (Option String) :=
  dropDuplicates
    ((id_table.rows.filter (fun r =>
        decide (rowGet r conversion.original_type.value = some idv) &&
        decide (rowGet r conversion.to_type.value ≠ none))).map
      (fun r => rowGet r conversion.to_type.value))

/-- A working table with a single row bearing one source id. -/
def singleRowInput (column idv : String) : Table :=
  ⟨[column], [[(column, some idv)]]⟩

/-! ## Concrete fixtures used by counterexamples and witnesses -/

/-- A working table with two identical rows. -/
def dupInput : Table := ⟨["a"], [[("a", some "x")], [("a", some "x")]]⟩

/-- An additive conversion of column `a` from `ensg` to `enst`. -/
def dupConv : Conversion := ⟨"a", .ensg, "b", .enst, true⟩

/-- A reference table with no rows. -/
def emptyRef : Table := ⟨["enst", "ensg"], []⟩

/-- A one-row working table for the chained-conversion scenario. -/
def chainInput : Table := ⟨["a"], [[("a", some "x.1")]]⟩

/-- A one-row reference table for the chained-conversion scenario. -/
def chainRef : Table :=
  ⟨["ensg", "ensg_version"], [[("ensg", some "x"), ("ensg_version", some "x.1")]]⟩

/-- First chained conversion: replace column `a` by `b`. -/
def chainConv1 : Conversion := ⟨"a", .ensg_version, "b", .ensg, false⟩

/-- Second chained conversion, whose source column `zzz` exists nowhere. -/
def chainConv2 : Conversion := ⟨"zzz", .ensg, "w", .enst, true⟩

/-- A reference table in which gene `g` maps to two distinct transcripts
(one duplicated, one missing). -/
def fanRef : Table :=
  ⟨["ensg", "enst"],
   [[("ensg", some "g"), ("enst", some "t1")],
    [("ensg", some "g"), ("enst", some "t2")],
    [("ensg", some "g"), ("enst", some "t1")],
    [("ensg", some "g"), ("enst", none)]]⟩

/-- The conversion used with `fanRef`. -/
def fanConv : Conversion := ⟨"src", .ensg, "tgt", .enst, true⟩

/-- A two-row working table (one matched, one unmatched source id). -/
def sampleInput : Table :=
  ⟨["gene", "other"],
   [[("gene", some "g1"), ("other", some "o1")],
    [("gene", some "g2"), ("other", some "o2")]]⟩

/-- A one-row reference table matching only `g1`. -/
def sampleRef : Table :=
  ⟨["ensg", "enst"], [[("ensg", some "g1"), ("enst", some "t1")]]⟩

/-- The conversion used with `sampleInput` and `sampleRef`. -/
def sampleConv : Conversion := ⟨"gene", .ensg, "tx", .enst, true⟩

/-! ## Lemmas about pySplit / pyJoin -/

theorem pySplit_of_no_sep (sep : Char) (l : List Char) (h : sep ∉ l) :
    pySplit sep l = [l] := by
  induction l with
  | nil => rfl
  | cons c cs ih =>
    simp only [List.mem_cons, not_or] at h
    simp only [pySplit]
    rw [if_neg (fun hc => h.1 hc.symm)]
    rw [ih h.2]

theorem pySplit_append_sep (sep : Char) (seg rest : List Char) (h : sep ∉ seg) :
    pySplit sep (seg ++ sep :: rest) = seg :: pySplit sep rest := by
  induction seg with
  | nil => simp [pySplit]
  | cons c cs ih =>
    simp only [List.mem_cons, not_or] at h
    simp only [List.cons_append, pySplit]
    rw [if_neg (fun hc => h.1 hc.symm)]
    rw [show (cs.append (sep :: rest)) = cs ++ sep :: rest from rfl, ih h.2]

theorem pySplit_pyJoin (sep : Char) (parts : List (List Char))
    (hne : parts ≠ []) (hsep : ∀ p ∈ parts, sep ∉ p) :
    pySplit sep (pyJoin sep parts) = parts := by
  induction parts with
  | nil => exact absurd rfl hne
  | cons p ps ih =>
    cases ps with
    | nil => exact pySplit_of_no_sep sep p (hsep p (by simp))
    | cons q qs =>
      show pySplit sep (p ++ sep :: pyJoin sep (q :: qs)) = _
      rw [pySplit_append_sep sep _ _ (hsep p (by simp))]
      rw [ih (by simp) (fun r hr => hsep r (List.mem_cons_of_mem _ hr))]

/-! ## Lemmas about dropDuplicates -/

theorem headD_mem {α : Type} (l : List α) (d : α) (h : l ≠ []) : l.headD d ∈ l := by
  cases l with
  | nil => exact absurd rfl h
  | cons a as => simp [List.headD]

theorem mem_dedupSeen {α : Type} [DecidableEq α] (seen l : List α) (x : α) :
    x ∈ dedupSeen seen l ↔ x ∈ l ∧ x ∉ seen := by
  induction l generalizing seen with
  | nil => simp [dedupSeen]
  | cons a as ih =>
    simp only [dedupSeen]
    by_cases h : a ∈ seen
    · rw [if_pos h, ih seen]
      constructor
      · rintro ⟨h1, h2⟩
        exact ⟨List.mem_cons_of_mem _ h1, h2⟩
      · rintro ⟨h1, h2⟩
        rcases List.mem_cons.mp h1 with rfl | h1
        · exact absurd h h2
        · exact ⟨h1, h2⟩
    · rw [if_neg h]
      simp only [List.mem_cons, ih (a :: seen), List.mem_cons, not_or]
      constructor
      · rintro (rfl | ⟨h1, h2, h3⟩)
        · exact ⟨Or.inl rfl, h⟩
        · exact ⟨Or.inr h1, h3⟩
      · rintro ⟨rfl | h1, h2⟩
        · exact Or.inl rfl
        · by_cases hxa : x = a
          · exact Or.inl hxa
          · exact Or.inr ⟨h1, hxa, h2⟩

theorem nodup_dedupSeen {α : Type} [DecidableEq α] (seen l : List α) :
    (dedupSeen seen l).Nodup := by
  induction l generalizing seen with
  | nil => simp [dedupSeen]
  | cons a as ih =>
    simp only [dedupSeen]
    by_cases h : a ∈ seen
    · rw [if_pos h]
      exact ih seen
    · rw [if_neg h]
      refine List.Nodup.cons ?_ (ih (a :: seen))
      intro hmem
      exact ((mem_dedupSeen _ _ _).mp hmem).2 (List.mem_cons_self a seen)

theorem mem_dropDuplicates {α : Type} [DecidableEq α] (l : List α) (x : α) :
    x ∈ dropDuplicates l ↔ x ∈ l := by
  simp [dropDuplicates, mem_dedupSeen]

theorem nodup_dropDuplicates {α : Type} [DecidableEq α] (l : List α) :
    (dropDuplicates l).Nodup :=
  nodup_dedupSeen [] l

theorem toFinset_dropDuplicates {α : Type} [DecidableEq α] (l : List α) :
    (dropDuplicates l).toFinset = l.toFinset := by
  ext x
  simp [List.mem_toFinset, mem_dropDuplicates]

theorem length_dropDuplicates {α : Type} [DecidableEq α] (l : List α) :
    (dropDuplicates l).length = l.toFinset.card := by
  rw [← List.toFinset_card_of_nodup (nodup_dropDuplicates l), toFinset_dropDuplicates]

theorem toFinset_map_eq_image {α β : Type} [DecidableEq α] [DecidableEq β]
    (f : α → β) (l : List α) : (l.map f).toFinset = l.toFinset.image f := by
  induction l with
  | nil => simp
  | cons a as ih => simp [ih]

theorem dedupSeen_congr {α : Type} [DecidableEq α] (seen seen' l : List α)
    (h : ∀ x, x ∈ seen ↔ x ∈ seen') : dedupSeen seen l = dedupSeen seen' l := by
  induction l generalizing seen seen' with
  | nil => rfl
  | cons a as ih =>
    simp only [dedupSeen]
    by_cases ha : a ∈ seen
    · rw [if_pos ha, if_pos ((h a).mp ha)]
      exact ih seen seen' h
    · rw [if_neg ha, if_neg (fun hc => ha ((h a).mpr hc))]
      rw [ih (a :: seen) (a :: seen') (fun x => by simp [List.mem_cons, h x])]

theorem dedupSeen_cons_of_not_mem {α : Type} [DecidableEq α] (a : α) (seen l : List α)
    (h : ∀ x ∈ l, x ≠ a) : dedupSeen (a :: seen) l = dedupSeen seen l := by
  induction l generalizing seen with
  | nil => rfl
  | cons x xs ih =>
    have hxa : x ≠ a := h x (List.mem_cons_self x xs)
    simp only [dedupSeen, List.mem_cons]
    by_cases hx : x ∈ seen
    · rw [if_pos (Or.inr hx), if_pos hx]
      exact ih seen (fun y hy => h y (List.mem_cons_of_mem _ hy))
    · rw [if_neg (by rintro (hc | hc) <;> [exact hxa hc; exact hx hc]), if_neg hx]
      rw [dedupSeen_congr (x :: a :: seen) (a :: x :: seen) xs
        (fun y => by simp [List.mem_cons]; tauto)]
      rw [ih (x :: seen) (fun y hy => h y (List.mem_cons_of_mem _ hy))]

theorem filter_dedupSeen {α : Type} [DecidableEq α] (p : α → Bool) (seen l : List α) :
    (dedupSeen seen l).filter p = dedupSeen seen (l.filter p) := by
  induction l generalizing seen with
  | nil => rfl
  | cons a as ih =>
    simp only [dedupSeen, List.filter_cons]
    by_cases ha : a ∈ seen
    · rw [if_pos ha]
      by_cases hp : p a
      · rw [if_pos hp]
        simp only [dedupSeen]
        rw [if_pos ha]
        exact ih seen
      · rw [if_neg hp]
        exact ih seen
    · rw [if_neg ha]
      by_cases hp : p a
      · rw [if_pos hp, List.filter_cons, if_pos hp]
        simp only [dedupSeen]
        rw [if_neg ha]
        rw [ih (a :: seen)]
      · rw [if_neg hp, List.filter_cons, if_neg hp]
        rw [ih (a :: seen)]
        rw [dedupSeen_cons_of_not_mem a seen (as.filter p)
          (fun x hx => fun hxa => by
            rcases List.mem_filter.mp hx with ⟨_, hpx⟩
            rw [hxa] at hpx
            exact hp hpx)]

theorem filter_dropDuplicates {α : Type} [DecidableEq α] (p : α → Bool) (l : List α) :
    (dropDuplicates l).filter p = dropDuplicates (l.filter p) :=
  filter_dedupSeen p [] l

theorem dedupSeen_map_length {α β γ : Type} [DecidableEq β] [DecidableEq γ]
    (l : List α) (f : α → β) (g : α → γ) (seenF : List β) (seenG : List γ)
    (hfg : ∀ a ∈ l, ∀ b ∈ l, f a = f b ↔ g a = g b)
    (hseen : ∀ a ∈ l, (f a ∈ seenF ↔ g a ∈ seenG)) :
    (dedupSeen seenF (l.map f)).length = (dedupSeen seenG (l.map g)).length := by
  induction l generalizing seenF seenG with
  | nil => rfl
  | cons a as ih =>
    simp only [List.map_cons, dedupSeen]
    have hmem := hseen a (List.mem_cons_self a as)
    by_cases h : f a ∈ seenF
    · rw [if_pos h, if_pos (hmem.mp h)]
      exact ih seenF seenG
        (fun x hx y hy => hfg x (List.mem_cons_of_mem _ hx) y (List.mem_cons_of_mem _ hy))
        (fun x hx => hseen x (List.mem_cons_of_mem _ hx))
    · rw [if_neg h, if_neg (fun hc => h (hmem.mpr hc))]
      simp only [List.length_cons]
      congr 1
      refine ih (f a :: seenF) (g a :: seenG)
        (fun x hx y hy => hfg x (List.mem_cons_of_mem _ hx) y (List.mem_cons_of_mem _ hy))
        (fun x hx => ?_)
      simp only [List.mem_cons]
      constructor
      · rintro (hc | hc)
        · exact Or.inl ((hfg x (List.mem_cons_of_mem _ hx) a (List.mem_cons_self a as)).mp hc)
        · exact Or.inr ((hseen x (List.mem_cons_of_mem _ hx)).mp hc)
      · rintro (hc | hc)
        · exact Or.inl ((hfg x (List.mem_cons_of_mem _ hx) a (List.mem_cons_self a as)).mpr hc)
        · exact Or.inr ((hseen x (List.mem_cons_of_mem _ hx)).mpr hc)

theorem dropDuplicates_map_length {α β γ : Type} [DecidableEq β] [DecidableEq γ]
    (l : List α) (f : α → β) (g : α → γ)
    (hfg : ∀ a ∈ l, ∀ b ∈ l, f a = f b ↔ g a = g b) :
    (dropDuplicates (l.map f)).length = (dropDuplicates (l.map g)).length :=
  dedupSeen_map_length l f g [] [] hfg (fun a _ => by simp)

theorem length_eq_of_nodup_of_mem_iff {α : Type} [DecidableEq α] (l1 l2 : List α)
    (h1 : l1.Nodup) (h2 : l2.Nodup) (h : ∀ x, x ∈ l1 ↔ x ∈ l2) :
    l1.length = l2.length := by
  rw [← List.toFinset_card_of_nodup h1, ← List.toFinset_card_of_nodup h2]
  congr 1
  ext x
  simp only [List.mem_toFinset]
  exact h x

/-! ## Lemmas about rows -/

theorem rowGet_append_of_mem (r s : Row) (c : String) (h : c ∈ r.map Prod.fst) :
    rowGet (r ++ s) c = rowGet r c := by
  induction r with
  | nil => simp at h
  | cons p ps ih =>
    obtain ⟨k, v⟩ := p
    simp only [List.map_cons, List.mem_cons] at h
    simp only [List.cons_append, rowGet]
    by_cases hk : k = c
    · rw [if_pos hk, if_pos hk]
    · rw [if_neg hk, if_neg hk]
      refine ih ?_
      rcases h with h | h
      · exact absurd h.symm hk
      · exact h

theorem rowGet_append_of_not_mem (r s : Row) (c : String) (h : c ∉ r.map Prod.fst) :
    rowGet (r ++ s) c = rowGet s c := by
  induction r with
  | nil => simp
  | cons p ps ih =>
    obtain ⟨k, v⟩ := p
    simp only [List.map_cons, List.mem_cons, not_or] at h
    simp only [List.cons_append, rowGet]
    rw [if_neg (fun hc => h.1 hc.symm)]
    exact ih h.2

theorem rowGet_renameRow_of_ne (old nw c : String) (r : Row) (h1 : c ≠ old) (h2 : c ≠ nw) :
    rowGet (renameRow old nw r) c = rowGet r c := by
  induction r with
  | nil => rfl
  | cons p ps ih =>
    obtain ⟨k, v⟩ := p
    simp only [renameRow, List.map_cons, rowGet]
    by_cases hk : k = old
    · rw [if_pos hk, if_neg (fun hc => h2 hc.symm), if_neg (fun hc => h1 (hc.symm.trans hk))]
      exact ih
    · rw [if_neg hk]
      by_cases hkc : k = c
      · rw [if_pos hkc, if_pos hkc]
      · rw [if_neg hkc, if_neg hkc]
        exact ih

theorem rowGet_dropColRow_of_ne (col c : String) (r : Row) (h : c ≠ col) :
    rowGet (dropColRow col r) c = rowGet r c := by
  induction r with
  | nil => rfl
  | cons p ps ih =>
    obtain ⟨k, v⟩ := p
    simp only [dropColRow, List.filter_cons]
    by_cases hk : k = col
    · rw [if_neg (by simp [hk])]
      simp only [rowGet]
      rw [if_neg (fun hkc => h (hkc.symm.trans hk))]
      exact ih
    · rw [if_pos (by simp [hk])]
      simp only [rowGet]
      by_cases hkc : k = c
      · rw [if_pos hkc, if_pos hkc]
      · rw [if_neg hkc, if_neg hkc]
        exact ih

/-! ## Lemmas about the left-join and the conversion engine -/

theorem expandRow_ne_nil (keys ro : List String) (rrows : List Row) (lr : Row) :
    expandRow keys ro rrows lr ≠ [] := by
  unfold expandRow
  by_cases h : (rrows.filter (fun rr => matchesRow keys lr rr)).isEmpty
  · rw [if_pos h]
    simp
  · rw [if_neg h]
    rw [Bool.not_eq_true, List.isEmpty_eq_false_iff_exists_mem] at h
    obtain ⟨x, hx⟩ := h
    intro hc
    rw [List.map_eq_nil_iff] at hc
    rw [hc] at hx
    simp at hx

theorem mem_expandRow (keys ro : List String) (rrows : List Row) (lr m : Row) :
    m ∈ expandRow keys ro rrows lr ↔
      (rrows.filter (fun rr => matchesRow keys lr rr) = [] ∧
        m = lr ++ ro.map (fun c => (c, (none : Option String)))) ∨
      (∃ rr ∈ rrows.filter (fun rr => matchesRow keys lr rr),
        m = lr ++ ro.map (fun c => (c, rowGet rr c))) := by
  unfold expandRow
  by_cases h : (rrows.filter (fun rr => matchesRow keys lr rr)).isEmpty
  · rw [if_pos h]
    rw [List.isEmpty_iff] at h
    simp [h]
  · rw [if_neg h]
    rw [Bool.not_eq_true, List.isEmpty_eq_false_iff_exists_mem] at h
    obtain ⟨x, hx⟩ := h
    constructor
    · intro hm
      rw [List.mem_map] at hm
      obtain ⟨rr, hrr, hrm⟩ := hm
      exact Or.inr ⟨rr, hrr, hrm.symm⟩
    · rintro (⟨hnil, _⟩ | ⟨rr, hrr, hrm⟩)
      · rw [hnil] at hx
        simp at hx
      · rw [List.mem_map]
        exact ⟨rr, hrr, hrm.symm⟩

theorem shape_of_mem_expandRow (keys ro : List String) (rrows : List Row) (lr m : Row)
    (h : m ∈ expandRow keys ro rrows lr) :
    ∃ f : String → Option String, m = lr ++ ro.map (fun c => (c, f c)) := by
  rcases (mem_expandRow keys ro rrows lr m).mp h with ⟨_, hm⟩ | ⟨rr, _, hm⟩
  · exact ⟨fun _ => none, hm⟩
  · exact ⟨fun c => rowGet rr c, hm⟩

theorem take_of_mem_expandRow (keys ro : List String) (rrows : List Row) (lr m : Row)
    (h : m ∈ expandRow keys ro rrows lr) : m.take lr.length = lr := by
  obtain ⟨f, hm⟩ := shape_of_mem_expandRow keys ro rrows lr m h
  rw [hm]
  exact List.take_left lr _

theorem mem_leftMerge_rows (l r : Table) (m : Row) :
    m ∈ (leftMerge l r).rows ↔ ∃ lr ∈ l.rows,
      m ∈ expandRow (commonCols l.cols r.cols)
        (r.cols.filter (fun c => decide (c ∉ l.cols))) r.rows lr := by
  simp only [leftMerge, List.mem_flatMap]

theorem panid_convert_rows (input : Table) (conversion : Conversion) (id_table : Table) :
    (panid_convert input conversion id_table).rows =
      (dropDuplicates (leftMerge input (mkSelection conversion id_table)).rows).map
        (fun m => renameRow conversion.to_type.value conversion.«to»
          (if conversion.additive then m else dropColRow conversion.original m)) := by
  cases hadd : conversion.additive with
  | true =>
    simp [panid_convert, hadd, renameCol, dropDupRows]
  | false =>
    simp [panid_convert, hadd, renameCol, dropCol, dropDupRows, List.map_map, Function.comp]

theorem panid_convert_length (input : Table) (conversion : Conversion) (id_table : Table) :
    (panid_convert input conversion id_table).rows.length =
      (dropDuplicates (leftMerge input (mkSelection conversion id_table)).rows).length := by
  rw [panid_convert_rows, List.length_map]

/-- The cell the post-processing of `panid_convert` (optional source-column
drop, then rename of the target-type column) leaves in a column the input
table already had. -/
theorem rowGet_post_append (t toc orig c : String) (add : Bool) (r ext : Row)
    (hc_mem : c ∈ r.map Prod.fst) (hc_t : c ≠ t) (hc_to : c ≠ toc)
    (hc_orig : add = false → c ≠ orig) :
    rowGet (renameRow t toc (if add then r ++ ext else dropColRow orig (r ++ ext))) c
      = rowGet r c := by
  cases add with
  | true =>
    rw [if_pos rfl]
    simp only [renameRow, List.map_append]
    rw [rowGet_append_of_mem]
    · exact rowGet_renameRow_of_ne t toc c r hc_t hc_to
    · show c ∈ (renameRow t toc r).map Prod.fst
      simp only [renameRow, List.map_map]
      rw [List.mem_map]
      rcases List.mem_map.mp hc_mem with ⟨p, hp, hpc⟩
      refine ⟨p, hp, ?_⟩
      simp only [Function.comp]
      rw [hpc]
      rw [if_neg hc_t]
  | false =>
    rw [if_neg (by simp)]
    have hco := hc_orig rfl
    simp only [dropColRow, List.filter_append, renameRow, List.map_append]
    rw [rowGet_append_of_mem]
    · have h1 : rowGet (renameRow t toc (dropColRow orig r)) c
          = rowGet (dropColRow orig r) c :=
        rowGet_renameRow_of_ne t toc c _ hc_t hc_to
      simp only [renameRow, dropColRow] at h1
      rw [h1]
      have h2 : rowGet (dropColRow orig r) c = rowGet r c :=
        rowGet_dropColRow_of_ne orig c r hco
      simp only [dropColRow] at h2
      rw [h2]
    · show c ∈ ((dropColRow orig r).map (fun p =>
        (if p.1 = t then toc else p.1, p.2))).map Prod.fst
      simp only [List.map_map]
      rw [List.mem_map]
      rcases List.mem_map.mp hc_mem with ⟨p, hp, hpc⟩
      refine ⟨p, ?_, ?_⟩
      · simp only [dropColRow, List.mem_filter]
        exact ⟨hp, by simp [hpc, hco]⟩
      · simp only [Function.comp]
        rw [hpc]
        rw [if_neg hc_t]

/-- The cell the post-processing leaves in the renamed target column, when
the extra joined-in pair is the single `(t, x)` entry. -/
theorem rowGet_post_target (t toc orig : String) (add : Bool) (r : Row) (x : Option String)
    (htoc : toc ∉ r.map Prod.fst) (ht : t ∉ r.map Prod.fst) (ht_orig : t ≠ orig) :
    rowGet (renameRow t toc (if add then r ++ [(t, x)] else dropColRow orig (r ++ [(t, x)]))) toc
      = x := by
  have hkey : ∀ s : Row, (∀ k ∈ s.map Prod.fst, k ∈ r.map Prod.fst) →
      toc ∉ (renameRow t toc s).map Prod.fst := by
    intro s hs hc
    simp only [renameRow, List.map_map] at hc
    rcases List.mem_map.mp hc with ⟨p, hp, hpc⟩
    simp only [Function.comp] at hpc
    by_cases hpt : p.1 = t
    · refine ht (hs p.1 (List.mem_map.mpr ⟨p, hp, rfl⟩) |> fun hmem => ?_)
      rw [hpt] at hmem
      exact hmem
    · rw [if_neg hpt] at hpc
      exact htoc (hs p.1 (List.mem_map.mpr ⟨p, hp, rfl⟩) |> fun hmem => hpc ▸ hmem)
  cases add with
  | true =>
    rw [if_pos rfl]
    simp only [renameRow, List.map_append]
    rw [rowGet_append_of_not_mem]
    · simp [rowGet]
    · exact hkey r (fun k hk => hk)
  | false =>
    rw [if_neg (by simp)]
    simp only [dropColRow, List.filter_append]
    have hfilt : ([((t : String), x)].filter (fun p => decide (p.1 ≠ orig))) = [(t, x)] := by
      simp [ht_orig]
    rw [hfilt]
    simp only [renameRow, List.map_append]
    rw [rowGet_append_of_not_mem]
    · simp [rowGet]
    · refine hkey (dropColRow orig r) (fun k hk => ?_)
      simp only [dropColRow] at hk
      rcases List.mem_map.mp hk with ⟨p, hp, hpc⟩
      exact List.mem_map.mpr ⟨p, (List.mem_filter.mp hp).1, hpc⟩

/-! ## Statuses of the cache claims -/

/-- C1: the claim says an artifact older than `now - timeout` is treated as
stale and rebuilt.  The code computes `st_mtime - time.time() > timeout`,
which is false for any artifact whose mtime lies in the past, so a stale
artifact (mtime `0`, now `2000000`, timeout `604800`, i.e. far older than
`now - timeout`) is not considered timed out and is loaded as-is, the fresh
fetch result being ignored. -/
theorem stale_artifact_loaded_without_rebuild :
    CachedData.is_timed_out (some ⟨0, "stale"⟩) 2000000 604800 = false ∧
    CachedData.data (some ⟨0, "stale"⟩) 2000000 604800 (.ok "fresh") 2000000
      = (some ⟨0, "stale"⟩, .ok "stale") ∧
    (0 : Int) < 2000000 - 604800 := by
  refine ⟨by decide, rfl, by decide⟩

/-- C4 counterexample: the claim says that after a failed rebuild the
artifact content that existed before the rebuild attempt is preserved.  In
the code the `"w+"` open truncates the artifact and the `except` branch
removes it, so an existing artifact (here one the code does consider timed
out) is gone after the failure rather than preserved. -/
theorem failed_rebuild_loses_previous_artifact :
    CachedData.is_timed_out (some ⟨5000000, "previous"⟩) 2000000 604800 = true ∧
    CachedData.data (some ⟨5000000, "previous"⟩) 2000000 604800
      (.error .fetchFailed) 2000000 = (none, .error .fetchFailed) ∧
    (none : Option CacheFile) ≠ some ⟨5000000, "previous"⟩ := by
  refine ⟨by decide, rfl, by decide⟩

/-- C4 (amended): when a rebuild runs and the fetch/save step fails, the
partially written artifact is removed, the failure propagates, and the
cache is left with no artifact at all (any previous artifact content is
deleted, not preserved). -/
theorem failed_rebuild_removes_artifact (file : Option CacheFile)
    (now timeout saveMtime : Int) (e : PyError)
    (h : CachedData.is_timed_out file now timeout = true) :
    CachedData.data file now timeout (.error e) saveMtime = (none, .error e) := by
  unfold CachedData.data
  rw [h]
  simp

/-- Witness for `failed_rebuild_removes_artifact` at a concrete timed-out state. -/
theorem failed_rebuild_removes_artifact_instance :
    CachedData.is_timed_out none 2000000 604800 = true ∧
    CachedData.data none 2000000 604800 (.error .fetchFailed) 7
      = (none, .error .fetchFailed) :=
  ⟨by decide, failed_rebuild_removes_artifact none 2000000 604800 7 .fetchFailed (by decide)⟩

/-! ## Statuses of the parser claims -/

/-- C2: for malformed conversion strings the claim demands a `ParseError`
identifying the offending string.  The code logs the underlying exception
and then crashes with an `UnboundLocalError` (which carries no information
about the input): shown here for a string that misses the grammar entirely
and for one with an unrecognized source-type token.  The failure does
short-circuit, so no partially populated `Conversion` is ever returned. -/
theorem malformed_conversion_raises_unbound_local :
    Conversion.from_string "panana" = .error .unboundLocalError ∧
    Conversion.from_string "a:nope>b:ensg" = .error .unboundLocalError := by
  refine ⟨rfl, rfl⟩

/-- C3: the claim (and the repo's own `test_conversion_parsing.py`, which
expects a `MergeMethod` field) says a trailing `?inner` / `?outer` selects
the merge mode, defaulting to outer.  The `Conversion` dataclass has no
merge-mode field and the regex has no rule for `?`, so the suffix is
swallowed into the target-type token, the `IdType` lookup fails, and
parsing raises; the same string without the suffix parses fine. -/
theorem merge_mode_suffix_rejected :
    Conversion.from_string "banana:ensg_version>papaya:ensg?inner"
      = .error .unboundLocalError ∧
    Conversion.from_string "banana:ensg_version>papaya:ensg"
      = .ok ⟨"banana", .ensg_version, "papaya", .ensg, false⟩ := by
  refine ⟨rfl, rfl⟩

/-! ## Row-count lower bound for one conversion step -/

theorem dedup_length_le_flatMap (rows : List Row) (f : Row → List Row) (L : Nat)
    (hne : ∀ r ∈ rows, f r ≠ [])
    (htake : ∀ r ∈ rows, ∀ m ∈ f r, m.take L = r) :
    (dropDuplicates rows).length ≤ (dropDuplicates (rows.flatMap f)).length := by
  rw [length_dropDuplicates, length_dropDuplicates]
  refine Finset.card_le_card_of_injOn (fun r => (f r).headD []) ?_ ?_
  · intro a ha
    rw [List.mem_toFinset] at ha ⊢
    rw [List.mem_flatMap]
    exact ⟨a, ha, headD_mem _ _ (hne a ha)⟩
  · intro a ha b hb hab
    rw [Finset.mem_coe, List.mem_toFinset] at ha hb
    have hta : ((f a).headD []).take L = a := htake a ha _ (headD_mem _ _ (hne a ha))
    have htb : ((f b).headD []).take L = b := htake b hb _ (headD_mem _ _ (hne b hb))
    rw [← hta, ← htb]
    simp only [hab]

/-! ## Statuses of the engine and driver claims (row counts, driver errors) -/

/-- C6 counterexample: the claim says one conversion step in OUTER mode
never shrinks the table.  A working table with two identical rows shrinks
to one row, because `panid_convert` calls `drop_duplicates` on the merge
result, collapsing rows that were already duplicated in the input. -/
theorem convert_can_shrink_duplicated_input :
    Wf dupInput ∧ dupInput.rows.length = 2 ∧
    (panid_convert dupInput dupConv emptyRef).rows.length = 1 := by
  refine ⟨by decide, rfl, rfl⟩

/-- C6 (amended): one conversion step yields at least as many rows as the
input table has distinct rows: the left join keeps at least one merged row
per input row, and the `drop_duplicates` after it can only collapse rows
that were exact duplicates already. -/
theorem convert_rowcount_ge_distinct (input id_table : Table) (conversion : Conversion)
    (hwf : Wf input) :
    (dropDuplicates input.rows).length
      ≤ (panid_convert input conversion id_table).rows.length := by
  rw [panid_convert_length]
  have hlb := dedup_length_le_flatMap input.rows
    (expandRow (commonCols input.cols (mkSelection conversion id_table).cols)
      ((mkSelection conversion id_table).cols.filter (fun c => decide (c ∉ input.cols)))
      (mkSelection conversion id_table).rows)
    input.cols.length
    (fun r _ => expandRow_ne_nil _ _ _ _)
    (fun r hr m hm => by
      have hl : r.length = input.cols.length := by
        rw [← hwf r hr, List.length_map]
      rw [← hl]
      exact take_of_mem_expandRow _ _ _ _ _ hm)
  exact hlb

/-- Witness for `convert_rowcount_ge_distinct` on the duplicated-row table. -/
theorem convert_rowcount_ge_distinct_instance :
    Wf dupInput ∧
    (dropDuplicates dupInput.rows).length
      ≤ (panid_convert dupInput dupConv emptyRef).rows.length :=
  ⟨by decide, convert_rowcount_ge_distinct dupInput emptyRef dupConv (by decide)⟩

/-- C7 counterexample: the claim says the missing-source-column error names
the spec's position and the columns of the *current* working table.  After
the first conversion replaces column `a` by `b`, the second conversion's
source column `zzz` is missing; the raised error carries the column name
and the *original* input's columns `["a"]` — not the current working
table's columns `["b"]`, and no position at all. -/
theorem missing_column_reports_stale_columns :
    panid chainInput [chainConv1, chainConv2] chainRef
      = .error (.valueError "zzz" ["a"]) ∧
    (panid_convert chainInput chainConv1 chainRef).cols = ["b"] ∧
    (["a"] : List String) ≠ ["b"] := by
  refine ⟨rfl, rfl, by decide⟩

/-- C7 (amended): when a spec's source column is absent from the working
table at the time the spec is applied, the driver fails fast (no output is
produced) with a `ValueError` naming that source column and the columns of
the *original* input table — it does not report the spec's position, nor
the current working table's columns. -/
theorem missing_column_error_content (inputCols : List String) (id_table current : Table)
    (conversion : Conversion) (rest : List Conversion)
    (h : conversion.original ∉ current.cols) :
    applyConversions inputCols id_table (conversion :: rest) current
      = .error (.valueError conversion.original inputCols) := by
  unfold applyConversions
  rw [if_neg h]

/-- Witness for `missing_column_error_content` on the chained scenario. -/
theorem missing_column_error_content_instance :
    chainConv2.original ∉ (panid_convert chainInput chainConv1 chainRef).cols ∧
    applyConversions chainInput.cols chainRef [chainConv2]
        (panid_convert chainInput chainConv1 chainRef)
      = .error (.valueError "zzz" ["a"]) :=
  ⟨by decide,
    missing_column_error_content chainInput.cols chainRef
      (panid_convert chainInput chainConv1 chainRef) chainConv2 [] (by decide)⟩

/-! ## The shape of the reference selection -/

theorem filter_eq_singleton_of_nodup (l : List String) (x : String)
    (hnd : l.Nodup) (hx : x ∈ l) :
    l.filter (fun c => decide (c = x)) = [x] := by
  induction l with
  | nil => simp at hx
  | cons a as ih =>
    rw [List.filter_cons]
    by_cases hax : a = x
    · rw [if_pos (by simp [hax])]
      have hnotin : a ∉ as := (List.nodup_cons.mp hnd).1
      have hnil : as.filter (fun c => decide (c = x)) = [] := by
        rw [List.filter_eq_nil_iff]
        intro b hb
        simp only [decide_eq_true_eq]
        intro hbx
        exact hnotin (by rw [hax, ← hbx]; exact hb)
      rw [hnil, hax]
    · rw [if_neg (by simp [hax])]
      have hx' : x ∈ as := by
        rcases List.mem_cons.mp hx with h | h
        · exact absurd h.symm hax
        · exact h
      exact ih (List.nodup_cons.mp hnd).2 hx'

theorem mkSelection_cols (conversion : Conversion) (id_table : Table)
    (hty : conversion.original_type.value ≠ conversion.to_type.value) :
    (mkSelection conversion id_table).cols
      = [conversion.to_type.value, conversion.original] := by
  simp only [mkSelection, dropDupRows, renameCol, dropna, selectCols]
  simp only [List.map_cons, List.map_nil]
  rw [if_neg (fun h => hty h.symm)]
  simp

theorem commonCols_source (cols : List String) (orig t : String)
    (hnd : cols.Nodup) (hsrc : orig ∈ cols) (ht : t ∉ cols) :
    commonCols cols [t, orig] = [orig] := by
  unfold commonCols
  have h1 : cols.filter (fun c => decide (c ∈ [t, orig]))
      = cols.filter (fun c => decide (c = orig)) := by
    apply List.filter_congr
    intro c hc
    have hct : c ≠ t := fun h => ht (h ▸ hc)
    rw [decide_eq_decide]
    simp [hct]
  rw [h1]
  exact filter_eq_singleton_of_nodup cols orig hnd hsrc

theorem rightOnly_selection (cols : List String) (orig t : String)
    (hsrc : orig ∈ cols) (ht : t ∉ cols) :
    ([t, orig] : List String).filter (fun c => decide (c ∉ cols)) = [t] := by
  rw [List.filter_cons, List.filter_cons, List.filter_nil]
  rw [if_pos (by simp [ht]), if_neg (by simp [hsrc])]

theorem mkSelection_rows (conversion : Conversion) (id_table : Table)
    (hty : conversion.original_type.value ≠ conversion.to_type.value) :
    (mkSelection conversion id_table).rows =
      dropDuplicates
        ((id_table.rows.filter
            (fun r => decide (rowGet r conversion.to_type.value ≠ none))).map
          (fun r => [(conversion.to_type.value, rowGet r conversion.to_type.value),
                     (conversion.original, rowGet r conversion.original_type.value)])) := by
  simp only [mkSelection, dropDupRows, renameCol, dropna, selectCols]
  congr 1
  rw [List.filter_map, List.map_map]
  have h1 : id_table.rows.filter
      ((fun row => decide (rowGet row conversion.to_type.value ≠ none)) ∘
        (fun r => [conversion.to_type.value, conversion.original_type.value].map
          (fun c => (c, rowGet r c))))
      = id_table.rows.filter (fun r => decide (rowGet r conversion.to_type.value ≠ none)) := by
    apply List.filter_congr
    intro r _
    simp [Function.comp, rowGet]
  rw [h1]
  apply List.map_congr_left
  intro r _
  simp [Function.comp, renameRow, Ne.symm hty]

/-! ## Statuses of the join-semantics claims -/

/-- C10: each row of `panid_convert`'s output agrees with some row of the
input table on every input column other than the conversion's source
column and target column: the engine never alters the other columns. -/
theorem convert_preserves_other_columns (input id_table : Table)
    (conversion : Conversion) (hwf : Wf input)
    (htgt : conversion.to_type.value ∉ input.cols) :
    ∀ r' ∈ (panid_convert input conversion id_table).rows, ∃ r ∈ input.rows,
      ∀ c ∈ input.cols, c ≠ conversion.original → c ≠ conversion.«to» →
        rowGet r' c = rowGet r c := by
  intro r' hr'
  rw [panid_convert_rows] at hr'
  rcases List.mem_map.mp hr' with ⟨m, hm, hpost⟩
  rw [mem_dropDuplicates] at hm
  rcases (mem_leftMerge_rows _ _ _).mp hm with ⟨lr, hlr, hexp⟩
  obtain ⟨f, hshape⟩ := shape_of_mem_expandRow _ _ _ _ _ hexp
  refine ⟨lr, hlr, fun c hc hcorig hcto => ?_⟩
  rw [← hpost, hshape]
  exact rowGet_post_append conversion.to_type.value conversion.«to» conversion.original c
    conversion.additive lr _ (by rw [hwf lr hlr]; exact hc)
    (fun hct => htgt (hct ▸ hc)) hcto (fun _ => hcorig)

/-- Witness for `convert_preserves_other_columns` on a concrete table. -/
theorem convert_preserves_other_columns_instance :
    (Wf sampleInput ∧ sampleConv.to_type.value ∉ sampleInput.cols) ∧
    (∀ r' ∈ (panid_convert sampleInput sampleConv sampleRef).rows,
      ∃ r ∈ sampleInput.rows,
        ∀ c ∈ sampleInput.cols, c ≠ sampleConv.original → c ≠ sampleConv.«to» →
          rowGet r' c = rowGet r c) :=
  ⟨⟨by decide, by decide⟩,
    convert_preserves_other_columns sampleInput sampleRef sampleConv
      (by decide) (by decide)⟩

/-- C5: the engine's join is a left-join of the working table to the
two-column reference selection keyed on exactly the spec's source column
(the only column the two frames share); every row of the working table
survives into the output (in additive mode with its source value intact),
and a row whose source value matches no selection row comes out with a
missing value in the new target column. -/
theorem left_join_on_source_column (input id_table : Table) (conversion : Conversion)
    (hwf : Wf input) (hnd : input.cols.Nodup)
    (hsrc : conversion.original ∈ input.cols)
    (htgt : conversion.to_type.value ∉ input.cols)
    (hto : conversion.«to» ∉ input.cols)
    (hty : conversion.original_type.value ≠ conversion.to_type.value) :
    commonCols input.cols (mkSelection conversion id_table).cols = [conversion.original] ∧
    (∀ r ∈ input.rows, ∃ r' ∈ (panid_convert input conversion id_table).rows,
      (∀ c ∈ input.cols, c ≠ conversion.original → rowGet r' c = rowGet r c) ∧
      (conversion.additive = true →
        rowGet r' conversion.original = rowGet r conversion.original)) ∧
    (∀ r ∈ input.rows,
      (mkSelection conversion id_table).rows.filter
          (fun rr => matchesRow [conversion.original] r rr) = [] →
      ∃ r' ∈ (panid_convert input conversion id_table).rows,
        rowGet r' conversion.«to» = none ∧
        ∀ c ∈ input.cols, c ≠ conversion.original → rowGet r' c = rowGet r c) := by
  have horig_t : conversion.original ≠ conversion.to_type.value :=
    fun h => htgt (h ▸ hsrc)
  have horig_to : conversion.original ≠ conversion.«to» :=
    fun h => hto (h ▸ hsrc)
  have hcols := mkSelection_cols conversion id_table hty
  have hkeys : commonCols input.cols (mkSelection conversion id_table).cols
      = [conversion.original] := by
    rw [hcols]
    exact commonCols_source _ _ _ hnd hsrc htgt
  have hro : (mkSelection conversion id_table).cols.filter
      (fun c => decide (c ∉ input.cols)) = [conversion.to_type.value] := by
    rw [hcols]
    exact rightOnly_selection _ _ _ hsrc htgt
  refine ⟨hkeys, ?_, ?_⟩
  · intro r hr
    have hEne := expandRow_ne_nil (commonCols input.cols (mkSelection conversion id_table).cols)
      ((mkSelection conversion id_table).cols.filter (fun c => decide (c ∉ input.cols)))
      (mkSelection conversion id_table).rows r
    have hmem := headD_mem _ ([] : Row) hEne
    have hout : (renameRow conversion.to_type.value conversion.«to»
        (if conversion.additive
          then (expandRow (commonCols input.cols (mkSelection conversion id_table).cols)
            ((mkSelection conversion id_table).cols.filter (fun c => decide (c ∉ input.cols)))
            (mkSelection conversion id_table).rows r).headD []
          else dropColRow conversion.original
            ((expandRow (commonCols input.cols (mkSelection conversion id_table).cols)
              ((mkSelection conversion id_table).cols.filter (fun c => decide (c ∉ input.cols)))
              (mkSelection conversion id_table).rows r).headD [])))
        ∈ (panid_convert input conversion id_table).rows := by
      rw [panid_convert_rows]
      exact List.mem_map_of_mem _
        ((mem_dropDuplicates _ _).mpr ((mem_leftMerge_rows _ _ _).mpr ⟨r, hr, hmem⟩))
    obtain ⟨f, hshape⟩ := shape_of_mem_expandRow _ _ _ _ _ hmem
    refine ⟨_, hout, fun c hc hcorig => ?_, fun hadd => ?_⟩
    · rw [hshape]
      exact rowGet_post_append conversion.to_type.value conversion.«to» conversion.original c
        conversion.additive r _ (by rw [hwf r hr]; exact hc)
        (fun hct => htgt (hct ▸ hc)) (fun hct => hto (hct ▸ hc)) (fun _ => hcorig)
    · rw [hshape]
      exact rowGet_post_append conversion.to_type.value conversion.«to» conversion.original
        conversion.original conversion.additive r _ (by rw [hwf r hr]; exact hsrc)
        horig_t horig_to (fun hfalse => absurd (hadd.symm.trans hfalse) (by simp))
  · intro r hr hunmatched
    have hE : expandRow (commonCols input.cols (mkSelection conversion id_table).cols)
        ((mkSelection conversion id_table).cols.filter (fun c => decide (c ∉ input.cols)))
        (mkSelection conversion id_table).rows r
        = [r ++ [(conversion.to_type.value, (none : Option String))]] := by
      rw [hkeys, hro]
      simp only [expandRow]
      rw [hunmatched]
      simp
    have hmem : (r ++ [(conversion.to_type.value, (none : Option String))])
        ∈ expandRow (commonCols input.cols (mkSelection conversion id_table).cols)
          ((mkSelection conversion id_table).cols.filter (fun c => decide (c ∉ input.cols)))
          (mkSelection conversion id_table).rows r := by
      rw [hE]
      simp
    have hout : (renameRow conversion.to_type.value conversion.«to»
        (if conversion.additive
          then r ++ [(conversion.to_type.value, (none : Option String))]
          else dropColRow conversion.original
            (r ++ [(conversion.to_type.value, (none : Option String))])))
        ∈ (panid_convert input conversion id_table).rows := by
      rw [panid_convert_rows]
      exact List.mem_map_of_mem _
        ((mem_dropDuplicates _ _).mpr ((mem_leftMerge_rows _ _ _).mpr ⟨r, hr, hmem⟩))
    refine ⟨_, hout, ?_, fun c hc hcorig => ?_⟩
    · exact rowGet_post_target conversion.to_type.value conversion.«to» conversion.original
        conversion.additive r none (by rw [hwf r hr]; exact hto)
        (by rw [hwf r hr]; exact htgt) horig_t.symm
    · exact rowGet_post_append conversion.to_type.value conversion.«to» conversion.original c
        conversion.additive r _ (by rw [hwf r hr]; exact hc)
        (fun hct => htgt (hct ▸ hc)) (fun hct => hto (hct ▸ hc)) (fun _ => hcorig)

/-- Witness for `left_join_on_source_column` on a concrete table (one
matched and one unmatched row). -/
theorem left_join_on_source_column_instance :
    (Wf sampleInput ∧ sampleInput.cols.Nodup ∧ sampleConv.original ∈ sampleInput.cols ∧
      sampleConv.to_type.value ∉ sampleInput.cols ∧ sampleConv.«to» ∉ sampleInput.cols ∧
      sampleConv.original_type.value ≠ sampleConv.to_type.value) ∧
    commonCols sampleInput.cols (mkSelection sampleConv sampleRef).cols
      = [sampleConv.original] :=
  ⟨⟨by decide, by decide, by decide, by decide, by decide, by decide⟩,
    (left_join_on_source_column sampleInput sampleRef sampleConv
      (by decide) (by decide) (by decide) (by decide) (by decide) (by decide)).1⟩

/-! ## Fan-out counting -/

theorem dropDuplicates_eq_nil_iff {α : Type} [DecidableEq α] (l : List α) :
    dropDuplicates l = [] ↔ l = [] := by
  constructor
  · intro h
    cases l with
    | nil => rfl
    | cons a as =>
      have hmem : a ∈ dropDuplicates (a :: as) :=
        (mem_dropDuplicates _ _).mpr (by simp)
      rw [h] at hmem
      simp at hmem
  · intro h
    rw [h]
    rfl

theorem dedup_dedup_map_length {β γ : Type} [DecidableEq β] [DecidableEq γ]
    (L : List β) (k : β → γ) :
    (dropDuplicates ((dropDuplicates L).map k)).length
      = (dropDuplicates (L.map k)).length :=
  length_eq_of_nodup_of_mem_iff _ _ (nodup_dropDuplicates _) (nodup_dropDuplicates _)
    (fun x => by
      rw [mem_dropDuplicates, mem_dropDuplicates, List.mem_map, List.mem_map]
      constructor
      · rintro ⟨a, ha, h⟩
        exact ⟨a, (mem_dropDuplicates _ _).mp ha, h⟩
      · rintro ⟨a, ha, h⟩
        exact ⟨a, (mem_dropDuplicates _ _).mpr ha, h⟩)

/-- C8: for a reference table in which one source-type id maps to exactly
`N` distinct non-missing target-type ids, converting a single-row working
table bearing that source id yields exactly `N` output rows after
de-duplication, one per distinct target id (the output target cells are
exactly those `N` ids). -/
theorem fanout_one_row_per_target (id_table : Table) (conversion : Conversion)
    (idv : String) (N : Nat)
    (hty : conversion.original_type.value ≠ conversion.to_type.value)
    (hsrc_t : conversion.original ≠ conversion.to_type.value)
    (hto_src : conversion.«to» ≠ conversion.original)
    (hpos : 0 < N)
    (hN : (distinctTargets id_table conversion idv).length = N) :
    (panid_convert (singleRowInput conversion.original idv) conversion id_table).rows.length
      = N ∧
    (∀ v, (∃ r' ∈ (panid_convert (singleRowInput conversion.original idv)
          conversion id_table).rows, rowGet r' conversion.«to» = v) ↔
        v ∈ distinctTargets id_table conversion idv) := by
  have hcols := mkSelection_cols conversion id_table hty
  have hrows := mkSelection_rows conversion id_table hty
  have hKEY : commonCols (singleRowInput conversion.original idv).cols
      (mkSelection conversion id_table).cols = [conversion.original] := by
    rw [hcols]
    simp [commonCols, singleRowInput]
  have hRO : (mkSelection conversion id_table).cols.filter
      (fun c => decide (c ∉ (singleRowInput conversion.original idv).cols))
      = [conversion.to_type.value] := by
    rw [hcols]
    rw [List.filter_cons, List.filter_cons, List.filter_nil]
    rw [if_pos (by simp [singleRowInput, Ne.symm hsrc_t]),
        if_neg (by simp [singleRowInput])]
  have hmatch : ∀ rr : Row,
      matchesRow [conversion.original] [(conversion.original, some idv)] rr
        = decide (some idv = rowGet rr conversion.original) := by
    intro rr
    simp [matchesRow, rowGet]
  have hMS : (mkSelection conversion id_table).rows.filter
      (fun rr => matchesRow [conversion.original] [(conversion.original, some idv)] rr)
      = dropDuplicates
          ((id_table.rows.filter (fun r =>
              decide (rowGet r conversion.original_type.value = some idv) &&
              decide (rowGet r conversion.to_type.value ≠ none))).map
            (fun r => [(conversion.to_type.value, rowGet r conversion.to_type.value),
                       (conversion.original, rowGet r conversion.original_type.value)])) := by
    rw [hrows]
    rw [List.filter_congr (fun rr _ => hmatch rr)]
    rw [filter_dropDuplicates]
    rw [List.filter_map]
    congr 1
    congr 1
    rw [List.filter_filter]
    apply List.filter_congr
    intro r _
    have hg : rowGet [(conversion.to_type.value, rowGet r conversion.to_type.value),
          (conversion.original, rowGet r conversion.original_type.value)]
        conversion.original = rowGet r conversion.original_type.value := by
      simp [rowGet, Ne.symm hsrc_t]
    simp only [Function.comp]
    rw [hg]
    have hsw : decide (some idv = rowGet r conversion.original_type.value)
        = decide (rowGet r conversion.original_type.value = some idv) := by
      rw [decide_eq_decide]
      exact eq_comm
    rw [hsw]
  have hF2ne : (id_table.rows.filter (fun r =>
      decide (rowGet r conversion.original_type.value = some idv) &&
      decide (rowGet r conversion.to_type.value ≠ none))) ≠ [] := by
    intro h
    have h0 : (distinctTargets id_table conversion idv).length = 0 := by
      unfold distinctTargets
      rw [h]
      rfl
    rw [hN] at h0
    omega
  have hMSne : (mkSelection conversion id_table).rows.filter
      (fun rr => matchesRow [conversion.original] [(conversion.original, some idv)] rr)
      ≠ [] := by
    rw [Ne, hMS, dropDuplicates_eq_nil_iff, List.map_eq_nil_iff]
    exact hF2ne
  have hEXP : expandRow [conversion.original] [conversion.to_type.value]
      (mkSelection conversion id_table).rows [(conversion.original, some idv)]
      = ((mkSelection conversion id_table).rows.filter
          (fun rr => matchesRow [conversion.original] [(conversion.original, some idv)] rr)).map
        (fun rr => [(conversion.original, (some idv : Option String)),
                    (conversion.to_type.value, rowGet rr conversion.to_type.value)]) := by
    simp only [expandRow]
    rw [if_neg (fun h => hMSne (List.isEmpty_iff.mp h))]
    apply List.map_congr_left
    intro rr _
    simp
  have hMERGE : (leftMerge (singleRowInput conversion.original idv)
      (mkSelection conversion id_table)).rows
      = ((mkSelection conversion id_table).rows.filter
          (fun rr => matchesRow [conversion.original] [(conversion.original, some idv)] rr)).map
        (fun rr => [(conversion.original, (some idv : Option String)),
                    (conversion.to_type.value, rowGet rr conversion.to_type.value)]) := by
    have hflat : (leftMerge (singleRowInput conversion.original idv)
        (mkSelection conversion id_table)).rows
        = expandRow
            (commonCols (singleRowInput conversion.original idv).cols
              (mkSelection conversion id_table).cols)
            ((mkSelection conversion id_table).cols.filter
              (fun c => decide (c ∉ (singleRowInput conversion.original idv).cols)))
            (mkSelection conversion id_table).rows
            [(conversion.original, some idv)] := by
      simp [leftMerge, singleRowInput]
    rw [hflat, hKEY, hRO, hEXP]
  have hg2 : ∀ r : Row, rowGet [(conversion.to_type.value, rowGet r conversion.to_type.value),
      (conversion.original, rowGet r conversion.original_type.value)]
      conversion.to_type.value = rowGet r conversion.to_type.value := by
    intro r
    simp [rowGet]
  constructor
  · rw [panid_convert_length, hMERGE, hMS, dedup_dedup_map_length, List.map_map]
    have hKMK : ∀ r ∈ id_table.rows.filter (fun r =>
        decide (rowGet r conversion.original_type.value = some idv) &&
        decide (rowGet r conversion.to_type.value ≠ none)),
        ((fun rr => [(conversion.original, (some idv : Option String)),
            (conversion.to_type.value, rowGet rr conversion.to_type.value)]) ∘
          (fun r => [(conversion.to_type.value, rowGet r conversion.to_type.value),
            (conversion.original, rowGet r conversion.original_type.value)])) r
        = [(conversion.original, (some idv : Option String)),
           (conversion.to_type.value, rowGet r conversion.to_type.value)] := by
      intro r _
      simp only [Function.comp]
      rw [hg2 r]
    rw [List.map_congr_left hKMK]
    rw [dropDuplicates_map_length _
      (fun r => [(conversion.original, (some idv : Option String)),
                 (conversion.to_type.value, rowGet r conversion.to_type.value)])
      (fun r => rowGet r conversion.to_type.value)
      (fun a _ b _ => by simp)]
    exact hN
  · intro v
    rw [panid_convert_rows]
    constructor
    · rintro ⟨r', hr', hval⟩
      rcases List.mem_map.mp hr' with ⟨m, hm, hpost⟩
      rw [mem_dropDuplicates, hMERGE] at hm
      rcases List.mem_map.mp hm with ⟨rr, hrr, hk⟩
      rw [hMS, mem_dropDuplicates] at hrr
      rcases List.mem_map.mp hrr with ⟨r, hrF2, hmk⟩
      subst hpost
      subst hk
      subst hmk
      rw [hg2 r] at hval
      have h3 := rowGet_post_target conversion.to_type.value conversion.«to»
        conversion.original conversion.additive
        [(conversion.original, (some idv : Option String))]
        (rowGet r conversion.to_type.value)
        (by simp [hto_src]) (by simp [Ne.symm hsrc_t]) (Ne.symm hsrc_t)
      have hveq : v = rowGet r conversion.to_type.value := by
        rw [← hval]
        exact h3
      rw [hveq]
      exact (mem_dropDuplicates _ _).mpr (List.mem_map_of_mem _ hrF2)
    · intro hv
      have hv' := (mem_dropDuplicates
        ((id_table.rows.filter (fun r =>
            decide (rowGet r conversion.original_type.value = some idv) &&
            decide (rowGet r conversion.to_type.value ≠ none))).map
          (fun r => rowGet r conversion.to_type.value)) v).mp hv
      rcases List.mem_map.mp hv' with ⟨r, hrF2, hrv⟩
      refine ⟨renameRow conversion.to_type.value conversion.«to»
        (if conversion.additive
          then [(conversion.original, (some idv : Option String)),
                (conversion.to_type.value, rowGet r conversion.to_type.value)]
          else dropColRow conversion.original
            [(conversion.original, (some idv : Option String)),
             (conversion.to_type.value, rowGet r conversion.to_type.value)]), ?_, ?_⟩
      · rw [List.mem_map]
        refine ⟨[(conversion.original, (some idv : Option String)),
                 (conversion.to_type.value, rowGet r conversion.to_type.value)], ?_, rfl⟩
        rw [mem_dropDuplicates, hMERGE, List.mem_map]
        refine ⟨[(conversion.to_type.value, rowGet r conversion.to_type.value),
                 (conversion.original, rowGet r conversion.original_type.value)], ?_, ?_⟩
        · rw [hMS, mem_dropDuplicates]
          exact List.mem_map_of_mem _ hrF2
        · rw [hg2 r]
      · have h3 := rowGet_post_target conversion.to_type.value conversion.«to»
          conversion.original conversion.additive
          [(conversion.original, (some idv : Option String))]
          (rowGet r conversion.to_type.value)
          (by simp [hto_src]) (by simp [Ne.symm hsrc_t]) (Ne.symm hsrc_t)
        exact h3.trans hrv

/-- Witness for `fanout_one_row_per_target` on a reference table where one
gene maps to two distinct transcripts (with a duplicate and a missing row). -/
theorem fanout_one_row_per_target_instance :
    (fanConv.original_type.value ≠ fanConv.to_type.value ∧
      fanConv.original ≠ fanConv.to_type.value ∧
      fanConv.«to» ≠ fanConv.original ∧
      0 < 2 ∧ (distinctTargets fanRef fanConv "g").length = 2) ∧
    (panid_convert (singleRowInput fanConv.original "g") fanConv fanRef).rows.length = 2 :=
  ⟨⟨by decide, by decide, by decide, by decide, by decide⟩,
    (fanout_one_row_per_target fanRef fanConv "g" 2
      (by decide) (by decide) (by decide) (by decide) (by decide)).1⟩

/-! ## Status of the drop_version claim -/

/-- C9: `drop_version` removes exactly the last dot-separated segment: on
any identifier assembled from dot-free segments it returns the join of all
but the last segment, and in particular
`drop_version "hello.there.nice.22" = "hello.there.nice"`. -/
theorem drop_version_drops_last_segment (parts : List (List Char))
    (hne : parts ≠ []) (hdot : ∀ p ∈ parts, '.' ∉ p) :
    drop_version (String.mk (pyJoin '.' parts))
      = String.mk (pyJoin '.' parts.dropLast) ∧
    drop_version "hello.there.nice.22" = "hello.there.nice" := by
  constructor
  · simp only [drop_version]
    rw [pySplit_pyJoin '.' parts hne hdot]
  · rfl

/-- Witness for `drop_version_drops_last_segment` on the spec's example. -/
theorem drop_version_drops_last_segment_instance :
    (["hello".data, "there".data, "nice".data, "22".data] : List (List Char)) ≠ [] ∧
    drop_version "hello.there.nice.22" = "hello.there.nice" :=
  ⟨by decide,
    (drop_version_drops_last_segment
      ["hello".data, "there".data, "nice".data, "22".data]
      (by decide) (by decide)).2⟩

end Panid
